import Mathlib

/-!
journald-forwarder, package `kafka` (`src/kafka/kafka.go`).

A shallow embedding of the producer pool: `readConfigs`, `LoadProducers`,
`newAsyncKafkaProducer` and `Send`, together with the two standard-library
string functions the package relies on (`strings.Split`, and `strings.Join`
for the round-trip property).

Conventions of the embedding

* A Go `string` is an immutable sequence of bytes: `GoString := List UInt8`.
  `bytes "…"` is the UTF-8 encoding of a literal, as the Go compiler stores it.
* The package-level variable `producers` and the two observable effects of the
  package (calls of `sarama.NewAsyncProducer`, pushes onto a producer's
  `Input()` channel) are the fields of `World`; every function takes the world
  and returns the new one.
* The broker client is not part of the repository.  `sarama.NewAsyncProducer`
  is a parameter `dial` of the embedding; it is told how many connection
  attempts came before, so that two attempts with equal arguments may differ.
* A nil interface value of type `sarama.AsyncProducer` is `none`; calling a
  method on it is a run-time panic.
* A push onto an `Input()` channel is recorded as done; that the push may wait
  while the channel is full is not modelled.
-/

namespace Kafka

/-! ## Strings -/

/-- A Go string: a sequence of bytes. -/
abbrev GoString := List UInt8

/-- The bytes of a string literal (its UTF-8 encoding). -/
def bytes (s : String) : GoString := s.data.flatMap String.utf8EncodeChar

/-- The byte `','`, the only separator `readConfigs` passes to `strings.Split`. -/
def comma : UInt8 := 44

/-- Go `bytealg.CountString(s, c)`: the number of bytes of `s` equal to `c`.
`strings.Count(s, sep)` takes this path when `len(sep) == 1`. -/
def CountString : GoString → UInt8 → Nat
  | [], _ => 0
  | b :: rest, c => (if b = c then 1 else 0) + CountString rest c

/-- Go `strings.IndexByte(s, c)`: the index of the first byte of `s` equal to
`c`, or `-1` when there is none.  `strings.Index(s, sep)` takes this path when
`len(sep) == 1`. -/
def IndexByte : GoString → UInt8 → Int
  | [], _ => -1
  | b :: rest, c =>
    if b = c then 0
    else
      let m := IndexByte rest c
      if m < 0 then -1 else m + 1

/-- The loop of Go `strings.genSplit` with `sepSave = 0` and a one-byte
separator `c`:

    for i < n {
        m := Index(s, sep)
        if m < 0 { break }
        a[i] = s[:m+sepSave]
        s = s[m+len(sep):]
        i++
    }
    a[i] = s
    return a[:i+1]

The first argument is `n - i`, the number of rounds left; the result is
`a[i:]` as it stands at the return. -/
def genSplitLoop (c : UInt8) : Nat → GoString → List GoString
  | 0, s => [s]
  | k + 1, s =>
    let m := IndexByte s c
    if m < 0 then [s]
    else s.take m.toNat :: genSplitLoop c k (s.drop (m.toNat + 1))

/-- Go `strings.genSplit(s, sep, 0, -1)` for a one-byte separator: `n` is
`Count(s, sep) + 1`, capped at `len(s) + 1`, and the loop runs for `n - 1`
rounds at most. -/
def genSplit (s : GoString) (c : UInt8) : List GoString :=
  let n := CountString s c + 1
  let n := if n > s.length + 1 then s.length + 1 else n
  genSplitLoop c (n - 1) s

/-- Go `strings.Split(s, sep)` for a one-byte separator. -/
def Split (s : GoString) (c : UInt8) : List GoString := genSplit s c

/-- Go `strings.Join(elems, sep)` for a one-byte separator: the elements
concatenated, with the separator between each two neighbours. -/
def Join : List GoString → UInt8 → GoString
  | [], _ => []
  | [e], _ => e
  | e :: e' :: rest, c => e ++ c :: Join (e' :: rest) c

/-! ## Configurations -/

/-- Go `type producerConfig struct { Brokers []string; Topic string }`. -/
structure producerConfig where
  Brokers : List GoString
  Topic : GoString
  deriving DecidableEq

/-- Go `readConfigs(brokers, topic)`: one configuration, whose broker list is
`strings.Split(brokers, ",")`. -/
def readConfigs (brokers : GoString) (topic : GoString) : List producerConfig :=
  let configs : List producerConfig := []
  let configs := configs ++ [{ Brokers := Split brokers comma, Topic := topic }]
  configs

/-- The resolver in the specification's words: the pieces of the string cut at
every `','`, in their order, nothing trimmed and nothing dropped. -/
def piecesAtCommas : GoString → List GoString
  | [] => [[]]
  | b :: rest =>
    if b = comma then [] :: piecesAtCommas rest
    else
      match piecesAtCommas rest with
      | [] => [[b]]
      | p :: ps => (b :: p) :: ps

/-! ## The producer pool -/

/-- A non-nil `sarama.AsyncProducer`: the identity of one producer connection,
as handed out by the client library. -/
abbrev AsyncProducer := Nat

/-- A non-nil Go `error` returned by the client library, by its text. -/
abbrev Error := String

/-- Go `sarama.RequiredAcks`. -/
abbrev RequiredAcks := Int

/-- Go `sarama.WaitForLocal`. -/
def WaitForLocal : RequiredAcks := 1

/-- The client library's `sarama.NewAsyncProducer(addrs, config)`, of which the
package sets `config.Producer.RequiredAcks` only.  The first argument is the
number of calls made before this one.  The library returns a non-nil producer
exactly when it returns a nil error. -/
abbrev Dial := Nat → List GoString → RequiredAcks → Except Error AsyncProducer

/-- Go `type producerWithTopic struct { Producer sarama.AsyncProducer; Topic string }`;
`Producer = none` is the nil interface value. -/
structure producerWithTopic where
  Producer : Option AsyncProducer
  Topic : GoString
  deriving DecidableEq

/-- The zero value of `producerWithTopic`, with which `make` fills a new slice. -/
def producerWithTopic.zero : producerWithTopic := { Producer := none, Topic := [] }

/-- Go `sarama.ProducerMessage`, of which `Send` sets `Topic` and `Value`. -/
structure ProducerMessage where
  Topic : GoString
  Value : GoString
  deriving DecidableEq

/-- The state the package reads and writes: its variable `producers`, the calls
of `sarama.NewAsyncProducer` made so far (broker list and acknowledgement
level, oldest first), and the messages pushed so far onto the `Input()` channel
of a producer (oldest first). -/
structure World where
  producers : List producerWithTopic
  dialed : List (List GoString × RequiredAcks)
  sent : List (AsyncProducer × ProducerMessage)
  deriving DecidableEq

/-- The state at program start: `var producers []producerWithTopic` is nil. -/
def World.start : World := { producers := [], dialed := [], sent := [] }

/-- A run-time panic of the Go program. -/
inductive Panic where
  | nilDereference
  deriving DecidableEq

/-- Go `newAsyncKafkaProducer(brokers)`: a default configuration with
`RequiredAcks = WaitForLocal`, handed to `sarama.NewAsyncProducer`. -/
def newAsyncKafkaProducer (dial : Dial) (brokers : List GoString) (w : World) :
    Except Error AsyncProducer × World :=
  (dial w.dialed.length brokers WaitForLocal,
    { w with dialed := w.dialed ++ [(brokers, WaitForLocal)] })

/-- The loop of `LoadProducers`, from index `i` on:

    for i, config := range configs {
        producer, err := newAsyncKafkaProducer(config.Brokers)
        if err != nil { return err }
        producers[i] = producerWithTopic{Producer: producer, Topic: config.Topic}
    }
    return nil
-/
def connectLoop (dial : Dial) : Nat → List producerConfig → World → Option Error × World
  | _, [], w => (none, w)
  | i, config :: rest, w =>
    match newAsyncKafkaProducer dial config.Brokers w with
    | (Except.error err, w1) => (some err, w1)
    | (Except.ok producer, w1) =>
      connectLoop dial (i + 1) rest
        { w1 with producers :=
            w1.producers.set i { Producer := some producer, Topic := config.Topic } }

/-- Lines 26 to 39 of `LoadProducers`, for a given `configs`:
`producers = make([]producerWithTopic, len(configs))`, then the loop. -/
def connectAll (dial : Dial) (configs : List producerConfig) (w : World) :
    Option Error × World :=
  connectLoop dial 0 configs
    { w with producers := List.replicate configs.length producerWithTopic.zero }

/-- Go `LoadProducers(brokers, topic)`; the result is the returned `error`
(`none` for nil) and the state afterwards. -/
def LoadProducers (dial : Dial) (brokers : GoString) (topic : GoString) (w : World) :
    Option Error × World :=
  if w.producers.length ≠ 0 then (none, w)
  else connectAll dial (readConfigs brokers topic) w

/-- The loop of `Send` over the slice it ranges over.  `p.Producer.Input()` on a
nil `Producer` panics; otherwise the message is pushed onto that producer's
input channel. -/
def sendLoop (raw : GoString) : List producerWithTopic → World → Option Panic × World
  | [], w => (none, w)
  | p :: rest, w =>
    match p.Producer with
    | none => (some Panic.nilDereference, w)
    | some producer =>
      sendLoop raw rest
        { w with sent := w.sent ++ [(producer, { Topic := p.Topic, Value := raw })] }

/-- Go `Send(raw)`; the result is the panic that ended the call, if any, and
the state afterwards. -/
def Send (raw : GoString) (w : World) : Option Panic × World :=
  sendLoop raw w.producers w

/-- A call of one of the two exported functions. -/
inductive Call where
  | load (brokers : GoString) (topic : GoString)
  | send (raw : GoString)
  deriving DecidableEq

/-- The state after one call, whatever the call returned.  A panic of `Send`
that the caller recovers from leaves the state as it was at the panic. -/
def Call.run (dial : Dial) : Call → World → World
  | Call.load brokers topic, w => (LoadProducers dial brokers topic w).2
  | Call.send raw, w => (Send raw w).2

/-- The state after a sequence of calls, the first of the list first. -/
def runCalls (dial : Dial) : List Call → World → World
  | [], w => w
  | c :: rest, w => runCalls dial rest (c.run dial w)

/-! ## Lemmas on the string functions -/

theorem CountString_eq_count (s : GoString) (c : UInt8) : CountString s c = s.count c := by
  induction s with
  | nil => rfl
  | cons b rest ih =>
    by_cases h : b = c
    · subst h; simp [CountString, ih, Nat.add_comm]
    · have h' : ¬ (b == c) = true := by simpa using h
      simp [CountString, ih, h, List.count_cons, h']

theorem IndexByte_ge (s : GoString) (c : UInt8) : -1 ≤ IndexByte s c := by
  induction s with
  | nil => simp [IndexByte]
  | cons b rest ih =>
    simp only [IndexByte]
    split
    · omega
    · split <;> omega

theorem IndexByte_neg_iff (s : GoString) (c : UInt8) : IndexByte s c < 0 ↔ c ∉ s := by
  induction s with
  | nil => simp [IndexByte]
  | cons b rest ih =>
    simp only [IndexByte, List.mem_cons, not_or]
    by_cases h : b = c
    · subst h; simp
    · have h' : ¬ c = b := fun e => h e.symm
      simp only [h, if_false, h', not_false_eq_true, true_and]
      rw [← ih]
      have := IndexByte_ge rest c
      split <;> omega

theorem piecesAtCommas_ne_nil (s : GoString) : piecesAtCommas s ≠ [] := by
  cases s with
  | nil => simp [piecesAtCommas]
  | cons b rest =>
    simp only [piecesAtCommas]
    split
    · simp
    · split <;> simp

theorem piecesAtCommas_of_not_mem (s : GoString) (h : comma ∉ s) : piecesAtCommas s = [s] := by
  induction s with
  | nil => rfl
  | cons b rest ih =>
    simp only [List.mem_cons, not_or] at h
    have hb : ¬ b = comma := fun e => h.1 e.symm
    simp [piecesAtCommas, hb, ih h.2]

theorem piecesAtCommas_of_mem (s : GoString) (h : 0 ≤ IndexByte s comma) :
    piecesAtCommas s =
      s.take (IndexByte s comma).toNat ::
        piecesAtCommas (s.drop ((IndexByte s comma).toNat + 1)) := by
  induction s with
  | nil => simp [IndexByte] at h
  | cons b rest ih =>
    by_cases hb : b = comma
    · simp [piecesAtCommas, IndexByte, hb]
    · have hrest : 0 ≤ IndexByte rest comma := by
        simp only [IndexByte, hb, if_false] at h
        by_contra hneg
        have : IndexByte rest comma < 0 := by omega
        simp [this] at h
      have hlt : ¬ IndexByte rest comma < 0 := by omega
      have htoNat : (IndexByte rest comma + 1).toNat = (IndexByte rest comma).toNat + 1 := by
        omega
      simp only [piecesAtCommas, IndexByte, hb, if_false, hlt, htoNat, List.take_succ_cons,
        List.drop_succ_cons]
      rw [ih hrest]

theorem CountString_of_mem (s : GoString) (c : UInt8) (h : 0 ≤ IndexByte s c) :
    CountString s c = CountString (s.drop ((IndexByte s c).toNat + 1)) c + 1 := by
  induction s with
  | nil => simp [IndexByte] at h
  | cons b rest ih =>
    by_cases hb : b = c
    · simp [CountString, IndexByte, hb, Nat.add_comm]
    · have hrest : 0 ≤ IndexByte rest c := by
        simp only [IndexByte, hb, if_false] at h
        by_contra hneg
        have : IndexByte rest c < 0 := by omega
        simp [this] at h
      have hlt : ¬ IndexByte rest c < 0 := by omega
      have htoNat : (IndexByte rest c + 1).toNat = (IndexByte rest c).toNat + 1 := by
        omega
      simp only [CountString, IndexByte, hb, if_false, hlt, htoNat, List.drop_succ_cons,
        Nat.zero_add]
      exact ih hrest

theorem genSplitLoop_eq_pieces (k : Nat) (s : GoString) (h : CountString s comma ≤ k) :
    genSplitLoop comma k s = piecesAtCommas s := by
  induction k generalizing s with
  | zero =>
    have h0 : s.count comma = 0 := by rw [← CountString_eq_count]; omega
    have hnot : comma ∉ s := List.count_eq_zero.mp h0
    simp [genSplitLoop, piecesAtCommas_of_not_mem s hnot]
  | succ k ih =>
    simp only [genSplitLoop]
    split
    · next hneg =>
      exact (piecesAtCommas_of_not_mem s ((IndexByte_neg_iff s comma).mp hneg)).symm
    · next hge =>
      have hge' : 0 ≤ IndexByte s comma := by omega
      rw [piecesAtCommas_of_mem s hge']
      congr 1
      apply ih
      have := CountString_of_mem s comma hge'
      omega

theorem Split_comma_eq_pieces (s : GoString) : Split s comma = piecesAtCommas s := by
  unfold Split genSplit
  apply genSplitLoop_eq_pieces
  have : CountString s comma ≤ s.length := by
    rw [CountString_eq_count]; exact List.count_le_length comma s
  split <;> omega

theorem piecesAtCommas_length (s : GoString) :
    (piecesAtCommas s).length = s.count comma + 1 := by
  induction s with
  | nil => rfl
  | cons b rest ih =>
    by_cases hb : b = comma
    · simp [piecesAtCommas, hb, ih]
    · have hb' : ¬ (b == comma) = true := by simpa using hb
      simp only [piecesAtCommas, hb, if_false, List.count_cons, hb', Nat.add_zero]
      have ih' : (piecesAtCommas rest).length = List.count comma rest + 0 + 1 := by simpa using ih
      simp only [Bool.false_eq_true, if_false]
      rw [← ih']
      split
      · next hnil => exact absurd hnil (piecesAtCommas_ne_nil rest)
      · next p ps hp => simp [hp]

theorem piecesAtCommas_no_comma (s : GoString) : ∀ e ∈ piecesAtCommas s, comma ∉ e := by
  induction s with
  | nil => simp [piecesAtCommas]
  | cons b rest ih =>
    by_cases hb : b = comma
    · simp only [piecesAtCommas, hb, if_true, List.mem_cons]
      rintro e (rfl | he)
      · simp
      · exact ih e he
    · simp only [piecesAtCommas, hb, if_false]
      split
      · next hnil => exact absurd hnil (piecesAtCommas_ne_nil rest)
      · next p ps hp =>
        rw [hp] at ih
        intro e he
        simp only [List.mem_cons] at he
        rcases he with rfl | he
        · have hp' := ih p (by simp)
          simp only [List.mem_cons, not_or]
          exact ⟨fun e => hb e.symm, hp'⟩
        · exact ih e (by simp [he])

theorem Join_piecesAtCommas (s : GoString) : Join (piecesAtCommas s) comma = s := by
  induction s with
  | nil => rfl
  | cons b rest ih =>
    by_cases hb : b = comma
    · simp only [piecesAtCommas, hb, if_true]
      rcases hp : piecesAtCommas rest with _ | ⟨p, ps⟩
      · exact absurd hp (piecesAtCommas_ne_nil rest)
      · rw [hp] at ih
        simp [Join, ih]
    · simp only [piecesAtCommas, hb, if_false]
      rcases hp : piecesAtCommas rest with _ | ⟨p, ps⟩
      · exact absurd hp (piecesAtCommas_ne_nil rest)
      · rw [hp] at ih
        cases ps with
        | nil => simp only [Join] at ih ⊢; rw [ih]
        | cons q qs => simp only [Join] at ih ⊢; rw [← ih]; simp

/-! ## Lemmas on the pool -/

theorem set_length_append (done rest : List producerWithTopic) (z x : producerWithTopic) :
    (done ++ z :: rest).set done.length x = done ++ x :: rest := by
  induction done with
  | nil => rfl
  | cons d ds ih => simp [List.set, ih]

theorem connectLoop_opened (dial : Dial) (pre : List producerConfig) :
    ∀ (hs : List AsyncProducer) (rest : List producerConfig)
      (done todo tail : List producerWithTopic)
      (dialed : List (List GoString × RequiredAcks))
      (sent : List (AsyncProducer × ProducerMessage)),
      hs.length = pre.length → todo.length = pre.length →
      (∀ k c, pre[k]? = some c →
        ∃ h, hs[k]? = some h ∧ dial (dialed.length + k) c.Brokers WaitForLocal = Except.ok h) →
      connectLoop dial done.length (pre ++ rest)
          { producers := done ++ (todo ++ tail), dialed := dialed, sent := sent } =
        connectLoop dial (done.length + pre.length) rest
          { producers :=
              done ++ (List.zipWith (fun h c => { Producer := some h, Topic := c.Topic }) hs pre
                ++ tail),
            dialed := dialed ++ pre.map (fun c => (c.Brokers, WaitForLocal)),
            sent := sent } := by
  induction pre with
  | nil =>
    intro hs rest done todo tail dialed sent hlen htodo _
    have h1 : hs = [] := List.length_eq_zero.mp hlen
    have h2 : todo = [] := List.length_eq_zero.mp htodo
    subst h1; subst h2
    simp
  | cons c pre ih =>
    intro hs rest done todo tail dialed sent hlen htodo hok
    rcases hs with _ | ⟨h, hs⟩
    · simp at hlen
    rcases todo with _ | ⟨z, todo⟩
    · simp at htodo
    obtain ⟨h0, hh0, hd0⟩ := hok 0 c (by simp)
    simp only [List.getElem?_cons_zero, Option.some.injEq] at hh0
    subst hh0
    simp only [Nat.add_zero] at hd0
    simp only [List.cons_append, connectLoop, newAsyncKafkaProducer, hd0,
      set_length_append]
    have ih' := ih hs rest (done ++ [{ Producer := some h, Topic := c.Topic }]) todo tail
      (dialed ++ [(c.Brokers, WaitForLocal)]) sent (by simpa using hlen) (by simpa using htodo)
      (by
        intro k c' hk
        obtain ⟨h', hh', hd'⟩ := hok (k + 1) c' (by simpa using hk)
        refine ⟨h', by simpa using hh', ?_⟩
        simp only [List.length_append, List.length_singleton]
        rw [← hd']; congr 1; omega)
    simp only [List.length_append, List.length_singleton, List.append_assoc,
      List.singleton_append] at ih'
    have happ : pre.append rest = pre ++ rest := rfl
    rw [happ, ih']
    simp [Nat.add_assoc, Nat.add_comm 1]

theorem connectLoop_error_only_if (dial : Dial) (configs : List producerConfig) :
    ∀ (i : Nat) (w : World) (e : Error), (connectLoop dial i configs w).1 = some e →
      ∃ k c, configs[k]? = some c ∧
        dial (w.dialed.length + k) c.Brokers WaitForLocal = Except.error e := by
  induction configs with
  | nil => intro i w e h; simp [connectLoop] at h
  | cons c rest ih =>
    intro i w e h
    simp only [connectLoop, newAsyncKafkaProducer] at h
    split at h
    · next err w1 heq =>
      simp only [Prod.mk.injEq] at heq
      simp only [Option.some.injEq] at h
      subst h
      exact ⟨0, c, by simp, by simpa using heq.1⟩
    · next producer w1 heq =>
      simp only [Prod.mk.injEq] at heq
      obtain ⟨k, c', hk, hd⟩ := ih _ _ e h
      refine ⟨k + 1, c', by simpa using hk, ?_⟩
      rw [← heq.2] at hd
      simp only [List.length_append, List.length_singleton] at hd
      rw [← hd]; congr 1; omega

theorem connectLoop_length (dial : Dial) (configs : List producerConfig) :
    ∀ (i : Nat) (w : World),
      (connectLoop dial i configs w).2.producers.length = w.producers.length := by
  induction configs with
  | nil => intro i w; rfl
  | cons c rest ih =>
    intro i w
    simp only [connectLoop, newAsyncKafkaProducer]
    split
    · next err w1 heq =>
      simp only [Prod.mk.injEq] at heq
      rw [← heq.2]
    · next producer w1 heq =>
      simp only [Prod.mk.injEq] at heq
      rw [ih, ← heq.2]
      simp

theorem connectAll_length (dial : Dial) (configs : List producerConfig) (w : World) :
    (connectAll dial configs w).2.producers.length = configs.length := by
  simp [connectAll, connectLoop_length]

/-- The general form of the first failure: the configurations before the
failing one are connected and bound, the failing one is the last attempt, and
the slots from the failing one on keep the zero value. -/
theorem connectAll_first_failure (dial : Dial) (w : World)
    (pre : List producerConfig) (c : producerConfig) (post : List producerConfig)
    (hs : List AsyncProducer) (e : Error)
    (hlen : hs.length = pre.length)
    (hpre : ∀ k c', pre[k]? = some c' →
      ∃ h, hs[k]? = some h ∧ dial (w.dialed.length + k) c'.Brokers WaitForLocal = Except.ok h)
    (hc : dial (w.dialed.length + pre.length) c.Brokers WaitForLocal = Except.error e) :
    connectAll dial (pre ++ c :: post) w =
      (some e,
        { producers :=
            List.zipWith (fun h c' => { Producer := some h, Topic := c'.Topic }) hs pre
              ++ List.replicate (post.length + 1) producerWithTopic.zero,
          dialed := w.dialed ++ (pre ++ [c]).map (fun c' => (c'.Brokers, WaitForLocal)),
          sent := w.sent }) := by
  have hrep : List.replicate (pre ++ c :: post).length producerWithTopic.zero =
      [] ++ (List.replicate pre.length producerWithTopic.zero
        ++ List.replicate (post.length + 1) producerWithTopic.zero) := by
    simp [← List.replicate_add]
  have := connectLoop_opened dial pre hs (c :: post) []
    (List.replicate pre.length producerWithTopic.zero)
    (List.replicate (post.length + 1) producerWithTopic.zero) w.dialed w.sent hlen (by simp) hpre
  simp only [connectAll, hrep]
  simp only [List.length_nil] at this
  rw [this]
  simp [connectLoop, newAsyncKafkaProducer, hc]

/-- The general form of a run without failure: one binding per configuration,
in order, and one attempt per configuration, in order. -/
theorem connectAll_all_opened (dial : Dial) (w : World)
    (configs : List producerConfig) (hs : List AsyncProducer)
    (hlen : hs.length = configs.length)
    (hok : ∀ k c, configs[k]? = some c →
      ∃ h, hs[k]? = some h ∧ dial (w.dialed.length + k) c.Brokers WaitForLocal = Except.ok h) :
    connectAll dial configs w =
      (none,
        { producers :=
            List.zipWith (fun h c => { Producer := some h, Topic := c.Topic }) hs configs,
          dialed := w.dialed ++ configs.map (fun c => (c.Brokers, WaitForLocal)),
          sent := w.sent }) := by
  have := connectLoop_opened dial configs hs [] []
    (List.replicate configs.length producerWithTopic.zero) [] w.dialed w.sent hlen (by simp) hok
  simp only [List.length_nil, List.append_nil, List.nil_append] at this
  simp only [connectAll]
  rw [this]
  simp [connectLoop]

theorem connectAll_error_only_if (dial : Dial) (configs : List producerConfig) (w : World)
    (e : Error) (h : (connectAll dial configs w).1 = some e) :
    ∃ k c, configs[k]? = some c ∧
      dial (w.dialed.length + k) c.Brokers WaitForLocal = Except.error e := by
  simpa using connectLoop_error_only_if dial configs 0 _ e h

theorem LoadProducers_of_empty (dial : Dial) (brokers topic : GoString) (w : World)
    (h : w.producers = []) :
    LoadProducers dial brokers topic w = connectAll dial (readConfigs brokers topic) w := by
  simp [LoadProducers, h]

theorem LoadProducers_of_loaded (dial : Dial) (brokers topic : GoString) (w : World)
    (h : w.producers ≠ []) : LoadProducers dial brokers topic w = (none, w) := by
  have : w.producers.length ≠ 0 := by
    intro h0; exact h (List.length_eq_zero.mp h0)
  simp [LoadProducers, this]

theorem sendLoop_frame (raw : GoString) (ps : List producerWithTopic) :
    ∀ w : World, (sendLoop raw ps w).2.producers = w.producers ∧
      (sendLoop raw ps w).2.dialed = w.dialed := by
  induction ps with
  | nil => intro w; exact ⟨rfl, rfl⟩
  | cons p rest ih =>
    intro w
    simp only [sendLoop]
    split
    · exact ⟨rfl, rfl⟩
    · exact ih _

theorem sendLoop_bindings (raw : GoString) (bs : List (AsyncProducer × GoString)) :
    ∀ w : World,
      sendLoop raw (bs.map (fun b => { Producer := some b.1, Topic := b.2 })) w =
        (none,
          { w with sent := w.sent ++ bs.map (fun b => (b.1, { Topic := b.2, Value := raw })) }) := by
  induction bs with
  | nil => intro w; simp [sendLoop]
  | cons b rest ih =>
    intro w
    simp only [List.map_cons, sendLoop]
    rw [ih]
    simp

theorem Call_run_loaded (dial : Dial) (c : Call) (w : World) (h : w.producers ≠ []) :
    (c.run dial w).producers = w.producers ∧ (c.run dial w).dialed = w.dialed := by
  cases c with
  | load brokers topic => simp [Call.run, LoadProducers_of_loaded dial brokers topic w h]
  | send raw => exact sendLoop_frame raw w.producers w

theorem runCalls_loaded (dial : Dial) (calls : List Call) :
    ∀ w : World, w.producers ≠ [] →
      (runCalls dial calls w).producers = w.producers ∧
        (runCalls dial calls w).dialed = w.dialed := by
  induction calls with
  | nil => intro w _; exact ⟨rfl, rfl⟩
  | cons c rest ih =>
    intro w h
    have hc := Call_run_loaded dial c w h
    have := ih (c.run dial w) (by rw [hc.1]; exact h)
    simp only [runCalls]
    exact ⟨this.1.trans hc.1, this.2.trans hc.2⟩

/-- C1: for every broker string and topic, `readConfigs` returns exactly one
configuration; its topic is the given topic and its broker list is the string
cut at every `','`, pieces in their order, nothing trimmed and nothing
dropped.  In particular `"a:1,b:2"` gives `["a:1", "b:2"]`, `"a:1"` gives
`["a:1"]`, and blanks and repeated addresses are kept as they are. -/
theorem readConfigs_splits_at_commas (brokers topic : GoString) :
    readConfigs brokers topic = [{ Brokers := piecesAtCommas brokers, Topic := topic }] ∧
    readConfigs (bytes "a:1,b:2") (bytes "t") =
      [{ Brokers := [bytes "a:1", bytes "b:2"], Topic := bytes "t" }] ∧
    readConfigs (bytes "a:1") (bytes "t") = [{ Brokers := [bytes "a:1"], Topic := bytes "t" }] ∧
    readConfigs (bytes " a:1 ,a:1,a:1, a:1 ") (bytes " t ") =
      [{ Brokers := [bytes " a:1 ", bytes "a:1", bytes "a:1", bytes " a:1 "],
         Topic := bytes " t " }] := by
  refine ⟨?_, by decide, by decide, by decide⟩
  simp [readConfigs, Split_comma_eq_pieces]

/-- C10: for every broker string, the empty one included, the broker list of
the configuration returned by `readConfigs` is not empty, has one element more
than the string has `','` bytes, has no `','` inside any element, and joined
with `','` it is the string again. -/
theorem readConfigs_brokers_roundtrip (brokers topic : GoString) :
    ∃ pieces : List GoString,
      readConfigs brokers topic = [{ Brokers := pieces, Topic := topic }] ∧
      pieces ≠ [] ∧
      pieces.length = brokers.count comma + 1 ∧
      (∀ piece ∈ pieces, comma ∉ piece) ∧
      Join pieces comma = brokers := by
  refine ⟨piecesAtCommas brokers, ?_, piecesAtCommas_ne_nil brokers,
    piecesAtCommas_length brokers, piecesAtCommas_no_comma brokers,
    Join_piecesAtCommas brokers⟩
  simp [readConfigs, Split_comma_eq_pieces]

/-! ## Send -/

/-- C2: on a pool that holds the bindings `b1..bn` (each a producer with its
topic), `Send` returns normally and pushes exactly `n` messages, in the order
of the pool: the i-th goes onto the input channel of the i-th producer, with
the i-th topic and the payload as value.  The pool and the connection log are
left as they were. -/
theorem Send_fans_out (raw : GoString) (w : World) (bs : List (AsyncProducer × GoString))
    (hpool : w.producers = bs.map (fun b => { Producer := some b.1, Topic := b.2 })) :
    Send raw w =
      (none,
        { producers := w.producers,
          dialed := w.dialed,
          sent := w.sent ++ bs.map (fun b => (b.1, { Topic := b.2, Value := raw })) }) ∧
    (bs.map (fun b => (b.1, ({ Topic := b.2, Value := raw } : ProducerMessage)))).length =
      w.producers.length := by
  constructor
  · have hloop := sendLoop_bindings raw bs w
    rw [← hpool] at hloop
    exact hloop
  · simp [hpool]

theorem Send_fans_out_witness :
    (({ producers := [{ Producer := some 3, Topic := bytes "t" },
                      { Producer := some 5, Topic := bytes "u" }],
        dialed := [], sent := [] } : World).producers =
      [(3, bytes "t"), (5, bytes "u")].map (fun b => { Producer := some b.1, Topic := b.2 })) ∧
    Send (bytes "x")
        { producers := [{ Producer := some 3, Topic := bytes "t" },
                        { Producer := some 5, Topic := bytes "u" }],
          dialed := [], sent := [] } =
      (none,
        { producers := [{ Producer := some 3, Topic := bytes "t" },
                        { Producer := some 5, Topic := bytes "u" }],
          dialed := [],
          sent := [(3, { Topic := bytes "t", Value := bytes "x" }),
                   (5, { Topic := bytes "u", Value := bytes "x" })] }) :=
  ⟨rfl, (Send_fans_out (bytes "x")
    { producers := [{ Producer := some 3, Topic := bytes "t" },
                    { Producer := some 5, Topic := bytes "u" }],
      dialed := [], sent := [] }
    [(3, bytes "t"), (5, bytes "u")] rfl).1⟩

/-- C4: on a pool with no binding, `Send` returns normally, pushes no message
and leaves the state, the empty pool included, as it was. -/
theorem Send_empty_pool (raw : GoString) (w : World) (hempty : w.producers = []) :
    Send raw w = (none, w) := by
  simp [Send, hempty, sendLoop]

theorem Send_empty_pool_witness :
    World.start.producers = [] ∧ Send (bytes "x") World.start = (none, World.start) :=
  ⟨rfl, Send_empty_pool (bytes "x") World.start rfl⟩

/-! ## LoadProducers -/

/-- C3: on a pool that already holds one or more elements, `LoadProducers`
returns nil for every pair of arguments and changes nothing: no connection
attempt, the pool the same.  Hence from such a state no sequence of
`LoadProducers` and `Send` calls changes the pool or makes a connection
attempt. -/
theorem LoadProducers_loaded_noop (dial : Dial) (w : World) (hloaded : w.producers ≠ [])
    (brokers topic : GoString) (calls : List Call) :
    LoadProducers dial brokers topic w = (none, w) ∧
    (runCalls dial calls w).producers = w.producers ∧
    (runCalls dial calls w).dialed = w.dialed :=
  ⟨LoadProducers_of_loaded dial brokers topic w hloaded, runCalls_loaded dial calls w hloaded⟩

theorem LoadProducers_loaded_noop_witness :
    (({ producers := [{ Producer := some 3, Topic := bytes "t" }],
        dialed := [([bytes "a:1"], WaitForLocal)], sent := [] } : World).producers ≠ []) ∧
    LoadProducers (fun _ _ _ => Except.ok 9) (bytes "b:2,c:3") (bytes "u")
        { producers := [{ Producer := some 3, Topic := bytes "t" }],
          dialed := [([bytes "a:1"], WaitForLocal)], sent := [] } =
      (none,
        { producers := [{ Producer := some 3, Topic := bytes "t" }],
          dialed := [([bytes "a:1"], WaitForLocal)], sent := [] }) ∧
    (runCalls (fun _ _ _ => Except.ok 9)
        [Call.send (bytes "x"), Call.load (bytes "b:2") (bytes "u"), Call.send (bytes "y")]
        { producers := [{ Producer := some 3, Topic := bytes "t" }],
          dialed := [([bytes "a:1"], WaitForLocal)], sent := [] }).producers =
      [{ Producer := some 3, Topic := bytes "t" }] :=
  ⟨by decide,
    (LoadProducers_loaded_noop (fun _ _ _ => Except.ok 9)
      { producers := [{ Producer := some 3, Topic := bytes "t" }],
        dialed := [([bytes "a:1"], WaitForLocal)], sent := [] }
      (by decide) (bytes "b:2,c:3") (bytes "u")
      [Call.send (bytes "x"), Call.load (bytes "b:2") (bytes "u"), Call.send (bytes "y")]).1,
    (LoadProducers_loaded_noop (fun _ _ _ => Except.ok 9)
      { producers := [{ Producer := some 3, Topic := bytes "t" }],
        dialed := [([bytes "a:1"], WaitForLocal)], sent := [] }
      (by decide) (bytes "b:2,c:3") (bytes "u")
      [Call.send (bytes "x"), Call.load (bytes "b:2") (bytes "u"), Call.send (bytes "y")]).2.1⟩

/-- C5, which the code breaks: the pool is meant to hold only producers that a
successful connection returned.  When the connection fails, `LoadProducers`
has already replaced the pool by a slice of zero values and returns without
filling it, so the state after the failed call holds an element whose
`Producer` is nil. -/
theorem LoadProducers_failure_leaves_nil_producer :
    LoadProducers (fun _ _ _ => Except.error "connection refused") (bytes "a:1") (bytes "t")
        World.start =
      (some "connection refused",
        { producers := [{ Producer := none, Topic := [] }],
          dialed := [([bytes "a:1"], WaitForLocal)],
          sent := [] }) ∧
    ¬ ∀ (dial : Dial) (calls : List Call),
        ∀ p ∈ (runCalls dial calls World.start).producers, p.Producer ≠ none := by
  refine ⟨by decide, ?_⟩
  intro hinv
  exact hinv (fun _ _ _ => Except.error "connection refused")
    [Call.load (bytes "a:1") (bytes "t")] { Producer := none, Topic := [] } (by decide) rfl

/-- C7: on an empty pool, when the connection for one of the resolved
configurations fails after those before it were opened, `LoadProducers`
returns that very failure, the failed attempt is the last attempt made (none
for a later configuration), and the bindings of the earlier configurations are
in the pool.  And whenever it returns an error, that error is the failure of a
connection attempt for one of the resolved configurations.
(`connectAll_first_failure` is the same for any list of configurations.) -/
theorem LoadProducers_returns_first_failure (dial : Dial) (brokers topic : GoString)
    (w : World) (hempty : w.producers = []) :
    (∀ (pre : List producerConfig) (c : producerConfig) (post : List producerConfig)
        (hs : List AsyncProducer) (e : Error),
        readConfigs brokers topic = pre ++ c :: post →
        hs.length = pre.length →
        (∀ k c', pre[k]? = some c' →
          ∃ h, hs[k]? = some h ∧
            dial (w.dialed.length + k) c'.Brokers WaitForLocal = Except.ok h) →
        dial (w.dialed.length + pre.length) c.Brokers WaitForLocal = Except.error e →
        (LoadProducers dial brokers topic w).1 = some e ∧
        (LoadProducers dial brokers topic w).2.dialed =
          w.dialed ++ (pre ++ [c]).map (fun c' => (c'.Brokers, WaitForLocal)) ∧
        (LoadProducers dial brokers topic w).2.producers.take pre.length =
          List.zipWith (fun h c' => { Producer := some h, Topic := c'.Topic }) hs pre ∧
        (LoadProducers dial brokers topic w).2.sent = w.sent) ∧
    (∀ e : Error, (LoadProducers dial brokers topic w).1 = some e →
      ∃ k c, (readConfigs brokers topic)[k]? = some c ∧
        dial (w.dialed.length + k) c.Brokers WaitForLocal = Except.error e) := by
  rw [LoadProducers_of_empty dial brokers topic w hempty]
  constructor
  · intro pre c post hs e hcfg hlen hpre hc
    rw [hcfg, connectAll_first_failure dial w pre c post hs e hlen hpre hc]
    refine ⟨rfl, rfl, ?_, rfl⟩
    have hz : (List.zipWith (fun h c' => ({ Producer := some h, Topic := c'.Topic } :
        producerWithTopic)) hs pre).length = pre.length := by
      simp [hlen]
    simp only
    rw [List.take_append_of_le_length (by omega), List.take_of_length_le (by omega)]
  · intro e he
    exact connectAll_error_only_if dial _ w e he

theorem LoadProducers_returns_first_failure_witness :
    World.start.producers = [] ∧
    (LoadProducers (fun _ _ _ => Except.error "connection refused") (bytes "a:1,b:2")
        (bytes "t") World.start).1 = some "connection refused" ∧
    (LoadProducers (fun _ _ _ => Except.error "connection refused") (bytes "a:1,b:2")
        (bytes "t") World.start).2.dialed = [([bytes "a:1", bytes "b:2"], WaitForLocal)] := by
  have h := (LoadProducers_returns_first_failure
    (fun _ _ _ => Except.error "connection refused") (bytes "a:1,b:2") (bytes "t")
    World.start rfl).1 [] { Brokers := [bytes "a:1", bytes "b:2"], Topic := bytes "t" } [] []
    "connection refused" (by decide) rfl (by intro k c' hk; simp at hk) rfl
  exact ⟨rfl, h.1, h.2.1⟩

/-- C8: on an empty pool, when every connection attempt succeeds,
`LoadProducers` returns nil and the pool afterwards is one binding for each
resolved configuration, in their order, each with the topic of its
configuration and the producer opened from its broker list.  That pool is not
empty, so every later `LoadProducers`, after any calls, returns nil at once and
changes nothing. -/
theorem LoadProducers_success (dial : Dial) (brokers topic : GoString) (w : World)
    (hs : List AsyncProducer) (hempty : w.producers = [])
    (hlen : hs.length = (readConfigs brokers topic).length)
    (hok : ∀ k c, (readConfigs brokers topic)[k]? = some c →
      ∃ h, hs[k]? = some h ∧ dial (w.dialed.length + k) c.Brokers WaitForLocal = Except.ok h)
    (calls : List Call) (brokers' topic' : GoString) :
    LoadProducers dial brokers topic w =
      (none,
        { producers :=
            List.zipWith (fun h c => { Producer := some h, Topic := c.Topic }) hs
              (readConfigs brokers topic),
          dialed := w.dialed ++
            (readConfigs brokers topic).map (fun c => (c.Brokers, WaitForLocal)),
          sent := w.sent }) ∧
    (LoadProducers dial brokers topic w).2.producers ≠ [] ∧
    LoadProducers dial brokers' topic'
        (runCalls dial calls (LoadProducers dial brokers topic w).2) =
      (none, runCalls dial calls (LoadProducers dial brokers topic w).2) := by
  have hload := LoadProducers_of_empty dial brokers topic w hempty
  have hall := connectAll_all_opened dial w (readConfigs brokers topic) hs hlen hok
  have hne : (LoadProducers dial brokers topic w).2.producers ≠ [] := by
    intro hnil
    have hl := connectAll_length dial (readConfigs brokers topic) w
    rw [← hload, hnil] at hl
    simp [readConfigs] at hl
  refine ⟨hload.trans hall, hne, ?_⟩
  apply LoadProducers_of_loaded
  rw [(runCalls_loaded dial calls _ hne).1]
  exact hne

theorem LoadProducers_success_witness :
    World.start.producers = [] ∧
    LoadProducers (fun _ _ _ => Except.ok 7) (bytes "a:1,b:2") (bytes "t") World.start =
      (none,
        { producers := [{ Producer := some 7, Topic := bytes "t" }],
          dialed := [([bytes "a:1", bytes "b:2"], WaitForLocal)],
          sent := [] }) :=
  ⟨rfl, (LoadProducers_success (fun _ _ _ => Except.ok 7) (bytes "a:1,b:2") (bytes "t")
    World.start [7] rfl (by decide)
    (by
      intro k c hk
      cases k with
      | zero => exact ⟨7, rfl, rfl⟩
      | succ k => simp [readConfigs] at hk)
    [] [] []).1⟩

/-- C9: on an empty pool, when `LoadProducers` returns an error (the failure of
a connection attempt), the pool it leaves behind has as many elements as there
were resolved configurations, so it is not empty; every later `LoadProducers`,
with any arguments and after any calls, therefore returns nil at once, and no
sequence of later calls makes a further connection attempt. -/
theorem LoadProducers_failure_not_retried (dial : Dial) (brokers topic : GoString) (w : World)
    (e : Error) (hempty : w.producers = [])
    (hfail : (LoadProducers dial brokers topic w).1 = some e)
    (calls : List Call) (brokers' topic' : GoString) :
    (LoadProducers dial brokers topic w).2.producers.length =
      (readConfigs brokers topic).length ∧
    (LoadProducers dial brokers topic w).2.producers ≠ [] ∧
    LoadProducers dial brokers' topic'
        (runCalls dial calls (LoadProducers dial brokers topic w).2) =
      (none, runCalls dial calls (LoadProducers dial brokers topic w).2) ∧
    (runCalls dial calls (LoadProducers dial brokers topic w).2).dialed =
      (LoadProducers dial brokers topic w).2.dialed ∧
    (∃ k c, (readConfigs brokers topic)[k]? = some c ∧
      dial (w.dialed.length + k) c.Brokers WaitForLocal = Except.error e) := by
  have hload := LoadProducers_of_empty dial brokers topic w hempty
  have hl : (LoadProducers dial brokers topic w).2.producers.length =
      (readConfigs brokers topic).length := by
    rw [hload]; exact connectAll_length dial (readConfigs brokers topic) w
  have hne : (LoadProducers dial brokers topic w).2.producers ≠ [] := by
    intro hnil
    rw [hnil] at hl
    simp [readConfigs] at hl
  refine ⟨hl, hne, ?_, (runCalls_loaded dial _ _ hne).2, ?_⟩
  · apply LoadProducers_of_loaded
    rw [(runCalls_loaded dial calls _ hne).1]
    exact hne
  · rw [hload] at hfail
    exact connectAll_error_only_if dial _ w e hfail

theorem LoadProducers_failure_not_retried_witness :
    World.start.producers = [] ∧
    (LoadProducers (fun n _ _ => if n = 0 then Except.error "connection refused" else Except.ok 7)
        (bytes "a:1") (bytes "t") World.start).1 = some "connection refused" ∧
    (runCalls (fun n _ _ => if n = 0 then Except.error "connection refused" else Except.ok 7)
        [Call.send (bytes "x"), Call.load (bytes "a:1") (bytes "t")]
        (LoadProducers
          (fun n _ _ => if n = 0 then Except.error "connection refused" else Except.ok 7)
          (bytes "a:1") (bytes "t") World.start).2).dialed =
      (LoadProducers (fun n _ _ => if n = 0 then Except.error "connection refused" else Except.ok 7)
        (bytes "a:1") (bytes "t") World.start).2.dialed :=
  ⟨rfl, by decide,
    (LoadProducers_failure_not_retried
      (fun n _ _ => if n = 0 then Except.error "connection refused" else Except.ok 7)
      (bytes "a:1") (bytes "t") World.start "connection refused" rfl (by decide)
      [Call.send (bytes "x"), Call.load (bytes "a:1") (bytes "t")] (bytes "b:2")
      (bytes "u")).2.2.2.1⟩

end Kafka
